import Mathlib

/-!
Verification of the ChainReactors5 task-orchestration and event-streaming
subsystem against its natural-language specification.

The development shallowly embeds the relevant Python modules:

* `src/agent/agent/rule_based_orchestrator.py` — capability registry,
  routing rules, router (`find_best_agents`), dispatcher (`route_task`);
* `src/agent/agent/streaming_orchestrator.py` — event broadcast bus
  (`broadcast_event`, `remove_client`, `_process_event_queue`).

Python strings are Lean `String`s; the Python string operations used by the
code (`in` substring test, `str.lower`, `str.split`) are re-implemented
structurally over `String.data` so that they compute by kernel reduction
(the inputs in this code base are ASCII, where `Char.toLower` agrees with
Python `str.lower`).  Python `float` is modelled as `ℚ`; `datetime.now()`
timestamps are modelled as an abstract `ℕ` instant passed in by the caller.
A handler (`agent.handle_task`, a stored `Callable`) is modelled by a map
`behave : String → Option α` from `agent_id` to the handler's outcome:
`some r` means the awaited call returns `r`, `none` means it raises, which
is exactly the distinction `route_task`'s `try/except` observes.  The
observed call latency is likewise a parameter `latency : String → ℚ`.
-/

/-! ### Data model (`rule_based_orchestrator.py`, lines 18-48) -/

/-- `AgentCapability` (lines 18-26): what an agent can do. -/
structure AgentCapability where
  name : String
  description : String
  input_types : List String
  output_types : List String
  keywords : List String
  priority : Int := 1
deriving DecidableEq

/-- `AgentRegistration` (lines 28-38).  The stored `handler : Callable` is
not a field here: handler behaviour is supplied to `route_task` as a map
from `agent_id` (the registry key that determines the handler) to outcome. -/
structure AgentRegistration where
  agent_id : String
  agent_name : String
  capabilities : List AgentCapability
  status : String := "active"
  last_used : Option Nat := none
  success_rate : ℚ := 1
  response_time : ℚ := 0
deriving DecidableEq

/-- `TaskRequest` (lines 40-48); `context : Dict[str, Any]` is opaque to the
orchestrator (never read by it) and is modelled as a string map; the
creation `timestamp` is never read either and is modelled as `ℕ`. -/
structure TaskRequest where
  task_id : String
  user_input : String
  context : List (String × String) := []
  priority : Int := 1
  required_capabilities : List String := []
  timestamp : Nat := 0
deriving DecidableEq

/-- A routing rule's `"condition"` entry.  In the source the default rules'
conditions are Python expressions such as `"inventory" in "user_input.lower()"`
which evaluate **at rule-construction time** to the boolean `False`
(a substring test between two string literals), so the stored value is a
`bool`; a custom rule added through `add_routing_rule` may instead carry a
condition string such as `"\"stock\" in user_input.lower()"`, which is what
`_evaluate_rule`'s parser expects. -/
inductive RuleCond where
  | ofBool (b : Bool)
  | ofStr (s : String)
deriving DecidableEq

/-- A routing rule dict: `condition`, `required_capabilities` (default `[]`
via `rule.get`), `priority`. -/
structure RoutingRule where
  condition : RuleCond
  required_capabilities : List String := []
  priority : Int := 1
deriving DecidableEq

/-! ### Python string primitives, re-implemented structurally -/

/-- Python `sub in hay` (contiguous-substring test), over char lists. -/
def hasSubstring (hay needle : List Char) : Bool :=
  match hay with
  | [] => needle.isEmpty
  | _ :: t => needle.isPrefixOf hay || hasSubstring t needle

/-- Python `sub in hay` on strings. -/
def pyContains (hay sub : String) : Bool :=
  hasSubstring hay.data sub.data

/-- Python `s.lower()` (ASCII, which covers every string this code uses). -/
def pyLower (s : String) : String :=
  ⟨s.data.map Char.toLower⟩

/-- Python `s.split(sep)` for a one-character separator, over char lists.
Always returns at least one piece. -/
def splitOnSep (sep : Char) : List Char → List (List Char)
  | [] => [[]]
  | c :: t =>
    match splitOnSep sep t with
    | [] => if c = sep then [[], [c]] else [[c]]
    | h :: r => if c = sep then [] :: h :: r else (c :: h) :: r

/-- The double-quote character, `'"'`. -/
def quoteChar : Char := Char.ofNat 34

/-! ### Rule evaluation and the router
(`rule_based_orchestrator.py`, lines 88-189) -/

/-- `_evaluate_rule` (lines 159-173).  A boolean condition (what every
default rule actually stores) raises `TypeError` at `"in" in condition`,
which the `except` swallows, returning `False`.  A string condition
containing both `"in"` and `"user_input.lower()"` has its keyword extracted
as `condition.split('"')[1]` (an out-of-range index raises `IndexError`,
also swallowed to `False`) and tested for containment in the lowercased
request text. -/
def evaluate_rule (rule : RoutingRule) (task : TaskRequest) : Bool :=
  match rule.condition with
  | .ofBool _ => false
  | .ofStr c =>
    if pyContains c "in" && pyContains c "user_input.lower()" then
      match (splitOnSep quoteChar c.data).get? 1 with
      | some kw => pyContains (pyLower task.user_input) ⟨kw⟩
      | none => false
    else
      false

/-- `_initialize_default_rules` (lines 88-116).  Each `"condition"` value is
written exactly as Python evaluates the source expression: a substring test
between **string literals** (for the chained comparisons of rules 2 and 5,
Python's `a in b in c` means `(a in b) and (b in c)`).  Every one of these
booleans is `false`, and `evaluate_rule` returns `false` for any boolean
condition regardless. -/
def default_routing_rules : List RoutingRule :=
  [ { condition := .ofBool (pyContains "user_input.lower()" "inventory"),
      required_capabilities := ["inventory_management"], priority := 1 },
    { condition := .ofBool (pyContains "user_input.lower() or predict" "forecast"
        && pyContains "user_input.lower()" "user_input.lower() or predict"),
      required_capabilities := ["demand_forecasting"], priority := 1 },
    { condition := .ofBool (pyContains "user_input.lower()" "supplier"),
      required_capabilities := ["supplier_management"], priority := 1 },
    { condition := .ofBool (pyContains "user_input.lower()" "order"),
      required_capabilities := ["order_management"], priority := 1 },
    { condition := .ofBool (pyContains "user_input.lower() or optimize" "cost"
        && pyContains "user_input.lower()" "user_input.lower() or optimize"),
      required_capabilities := ["cost_optimization"], priority := 2 } ]

/-- `_find_agents_by_capabilities` (lines 175-189): skip agents whose status
is not `"active"`; keep those with any of the required capability names
(`any(cap in agent_capabilities for cap in required_capabilities)`). -/
def find_agents_by_capabilities (regs : List AgentRegistration)
    (required : List String) : List AgentRegistration :=
  regs.filter (fun a =>
    a.status == "active"
      && required.any (fun cap => (a.capabilities.map AgentCapability.name).contains cap))

/-! ### Registry as an insertion-ordered dict keyed by `agent_id` -/

/-- Python `dict` assignment `d[a.agent_id] = a` on a registry whose values
carry their own key: replace the entries holding that key in place,
otherwise append.  (A dict's keys are unique, so at most one entry ever
matches.) -/
def dictInsert (acc : List AgentRegistration) (a : AgentRegistration) :
    List AgentRegistration :=
  if acc.any (fun b => b.agent_id == a.agent_id) then
    acc.map (fun b => if b.agent_id = a.agent_id then a else b)
  else
    acc ++ [a]

/-- Python `self.registered_agents[agent_id]` lookup. -/
def lookupAgent (regs : List AgentRegistration) (id : String) :
    Option AgentRegistration :=
  regs.find? (fun a => a.agent_id == id)

/-- `list({agent.agent_id: agent for agent in suitable_agents}.values())`
(line 154): deduplicate by `agent_id` — a dict comprehension keyed by
`agent_id`, keeping first-occurrence order, folded left with dict
assignment. -/
def dedupById (l : List AgentRegistration) : List AgentRegistration :=
  l.foldl dictInsert []

/-- The strict "ranks ahead" comparison of
`sort(key=lambda x: (x.success_rate, -x.response_time), reverse=True)`:
`b` strictly precedes `a` when `b`'s key `(success_rate, -response_time)`
is lexicographically greater. -/
def rankGT (b a : AgentRegistration) : Bool :=
  decide (a.success_rate < b.success_rate
    ∨ (a.success_rate = b.success_rate ∧ b.response_time < a.response_time))

/-- Stable insertion into a list sorted descending by
`(success_rate, -response_time)`: walk past strictly-greater keys, stop at
the first element that does not strictly precede (so an equal key keeps the
incoming, originally-earlier element first — exactly Python's stable
`list.sort(..., reverse=True)`). -/
def insertRanked (a : AgentRegistration) :
    List AgentRegistration → List AgentRegistration
  | [] => [a]
  | b :: t => if rankGT b a then b :: insertRanked a t else a :: b :: t

/-- `unique_agents.sort(key=lambda x: (x.success_rate, -x.response_time),
reverse=True)` (line 155): a stable descending sort; any stable sort
produces the same list as CPython's, so an insertion sort models it
exactly. -/
def sortRanked (l : List AgentRegistration) : List AgentRegistration :=
  l.foldr insertRanked []

/-- The rule-matching accumulation of `find_best_agents` (lines 146-151):
every matching rule extends `suitable_agents` with the agents exposing one
of its required capabilities. -/
def suitable_agents (rules : List RoutingRule) (regs : List AgentRegistration)
    (task : TaskRequest) : List AgentRegistration :=
  rules.foldl
    (fun acc rule =>
      if evaluate_rule rule task then
        acc ++ find_agents_by_capabilities regs rule.required_capabilities
      else acc)
    []

/-- `find_best_agents` (lines 142-157): accumulate per matching rule,
deduplicate by `agent_id`, stable-sort descending by
`(success_rate, -response_time)`. -/
def find_best_agents (rules : List RoutingRule) (regs : List AgentRegistration)
    (task : TaskRequest) : List AgentRegistration :=
  sortRanked (dedupById (suitable_agents rules regs task))

/-! ### Registration (`register_agent`, lines 118-135) -/

/-- The identity and declared capabilities a `BaseAgent` brings to
`register_agent`. -/
structure AgentInfo where
  agent_id : String
  agent_name : String
  capabilities : List AgentCapability
deriving DecidableEq

/-- The `AgentRegistration(...)` constructed by `register_agent`
(lines 122-128): fresh status `"active"`, and the dataclass defaults
`last_used=None`, `success_rate=1.0`, `response_time=0.0`. -/
def freshRegistration (agent : AgentInfo) : AgentRegistration :=
  { agent_id := agent.agent_id
    agent_name := agent.agent_name
    capabilities := agent.capabilities
    status := "active" }

/-- `register_agent` (lines 118-135): unconditionally assign
`self.registered_agents[agent.agent_id] = registration` — there is no
presence check and no `DuplicateHandlerError`. -/
def register_agent (regs : List AgentRegistration) (agent : AgentInfo) :
    List AgentRegistration :=
  dictInsert regs (freshRegistration agent)

/-! ### The dispatcher (`route_task`, lines 191-247) -/

/-- `min(1.0, success_rate + 0.1)` (line 222). -/
def succRateUp (sr : ℚ) : ℚ := min 1 (sr + 1/10)

/-- `max(0.0, success_rate - 0.1)` (line 240). -/
def succRateDown (sr : ℚ) : ℚ := max 0 (sr - 1/10)

/-- The effect of one completed dispatch attempt on a registration's
`success_rate`, as `route_task`'s loop performs it: line 222 on a
successful attempt, line 240 on a failed one. -/
def applyOutcome (sr : ℚ) (ok : Bool) : ℚ :=
  if ok then succRateUp sr else succRateDown sr

/-- Lines 211-212: `agent.status = "busy"; agent.last_used = datetime.now()`. -/
def busyUpd (now : Nat) (a : AgentRegistration) : AgentRegistration :=
  { a with status := "busy", last_used := some now }

/-- Lines 220-222 (success): `agent.response_time = ...; agent.status =
"active"; agent.success_rate = min(1.0, agent.success_rate + 0.1)`. -/
def succUpd (rt : ℚ) (a : AgentRegistration) : AgentRegistration :=
  { a with response_time := rt, status := "active",
           success_rate := succRateUp a.success_rate }

/-- Lines 239-240 (exception): `agent.status = "active";
agent.success_rate = max(0.0, agent.success_rate - 0.1)`. -/
def failUpd (a : AgentRegistration) : AgentRegistration :=
  { a with status := "active", success_rate := succRateDown a.success_rate }

/-- Mutating one registration object in the registry: the loop's `agent`
variables alias `registered_agents`' values, so a field assignment is an
update of every registry entry carrying that `agent_id` (at most one, since
dict keys are unique). -/
def updateAgent (regs : List AgentRegistration) (id : String)
    (f : AgentRegistration → AgentRegistration) : List AgentRegistration :=
  regs.map (fun a => if a.agent_id = id then f a else a)

/-- The result dict `route_task` returns: one of the three literals at
lines 199-203, 229-235 and 243-247, with exactly the keys each carries. -/
structure DispatchResult (α : Type) where
  success : Bool
  error : Option String := none
  result : Option α := none
  agent_used : Option String := none
  response_time : Option ℚ := none
  task_id : String
deriving DecidableEq

/-- What one `route_task` call leaves behind: its returned dict, the
registry after its metric updates, the `agent_id`s it invoked (in order),
and what it appended to `task_history`. -/
structure RouteOutcome (α : Type) where
  result : DispatchResult α
  registry : List AgentRegistration
  attempted : List String
  history_append : List TaskRequest
deriving DecidableEq

/-- The `for agent in suitable_agents` retry loop of `route_task`
(lines 206-241): mark busy, invoke the handler; on return, record latency,
mark active, bump `success_rate` and stop; on an exception, mark active,
drop `success_rate` and move to the next candidate.  Returns the final
registry, the invoked ids, and `some (agent_name, result, latency)` on
success. -/
def tryAgents {α : Type} (behave : String → Option α) (latency : String → ℚ)
    (now : Nat) :
    List AgentRegistration → List AgentRegistration →
    List AgentRegistration × List String × Option (String × α × ℚ)
  | [], regs => (regs, [], none)
  | c :: rest, regs =>
    let regs1 := updateAgent regs c.agent_id (busyUpd now)
    match behave c.agent_id with
    | some r =>
      let rt := latency c.agent_id
      (updateAgent regs1 c.agent_id (succUpd rt), [c.agent_id],
        some (c.agent_name, r, rt))
    | none =>
      let rec_ := tryAgents behave latency now rest
        (updateAgent regs1 c.agent_id failUpd)
      (rec_.1, c.agent_id :: rec_.2.1, rec_.2.2)

/-- Error string of lines 199-203. -/
def noSuitableMsg : String := "No suitable agents found for this task"

/-- Error string of lines 243-247. -/
def allFailedMsg : String := "All suitable agents failed to process the task"

/-- `route_task` (lines 191-247). -/
def route_task {α : Type} (rules : List RoutingRule)
    (regs : List AgentRegistration) (behave : String → Option α)
    (latency : String → ℚ) (now : Nat) (task : TaskRequest) : RouteOutcome α :=
  let suitable := find_best_agents rules regs task
  if suitable.isEmpty then
    { result := { success := false, error := some noSuitableMsg,
                  task_id := task.task_id },
      registry := regs, attempted := [], history_append := [] }
  else
    let r := tryAgents behave latency now suitable regs
    { result :=
        match r.2.2 with
        | some (nm, res, rt) =>
          { success := true, result := some res, agent_used := some nm,
            response_time := some rt, task_id := task.task_id }
        | none =>
          { success := false, error := some allFailedMsg,
            task_id := task.task_id },
      registry := r.1,
      attempted := r.2.1,
      history_append :=
        match r.2.2 with
        | some _ => [task]
        | none => [] }

/-! ### The event broadcast bus (`streaming_orchestrator.py`, lines 18-94)

`connected_clients` holds websocket objects identified by identity; each is
modelled by an opaque client id (a `String`).  Whether `client.send(...)`
raises `ConnectionClosed` for a given event is the transport's behaviour,
modelled by an oracle `failsOn : String → StreamingEvent → Bool`. -/

/-- `StreamingEvent` (lines 18-26); `data : Dict[str, Any]` is opaque and
the timestamp is an abstract instant. -/
structure StreamingEvent where
  event_type : String
  item_id : String
  data : List (String × String) := []
  timestamp : Nat := 0
  agent_id : String
  user_id : Option String := none
deriving DecidableEq

/-- `remove_client` (lines 53-57): `list.remove` of the first occurrence,
guarded by a membership test. -/
def remove_client (clients : List String) (c : String) : List String :=
  if c ∈ clients then clients.erase c else clients

/-- `broadcast_event` (lines 59-83): if nobody is connected, do nothing;
otherwise attempt `client.send` on every currently connected client in
list order, collecting those that raise `ConnectionClosed` into
`disconnected_clients`, then remove each of those.  Returns (the clients
the event was delivered to, in order; the client list afterwards). -/
def broadcast_event (failsOn : String → StreamingEvent → Bool)
    (clients : List String) (e : StreamingEvent) :
    List String × List String :=
  if clients.isEmpty then ([], clients)
  else
    let disconnected := clients.filter (fun c => failsOn c e)
    let delivered := clients.filter (fun c => !failsOn c e)
    (delivered, disconnected.foldl remove_client clients)

/-- `_process_event_queue` (lines 85-94): the single consuming loop —
dequeue the next event (FIFO, in publish order) and `await
broadcast_event` on it before touching the next one.  Folding it over the
queued events yields the delivery log (per event, who received it) and the
final client list. -/
def process_event_queue (failsOn : String → StreamingEvent → Bool) :
    List String → List StreamingEvent →
    List (StreamingEvent × List String) × List String
  | clients, [] => ([], clients)
  | clients, e :: rest =>
    let p := broadcast_event failsOn clients e
    let q := process_event_queue failsOn p.2 rest
    ((e, p.1) :: q.1, q.2)

/-- The events a given client observes, in delivery order, from a delivery
log. -/
def receivedBy (c : String) (log : List (StreamingEvent × List String)) :
    List StreamingEvent :=
  (log.filter (fun p => p.2.contains c)).map Prod.fst

/-! ### Concrete fixtures used by witnesses and counterexamples -/

/-- `InventoryManagementAgent` (lines 276-298): id, name and declared
capabilities exactly as in the source. -/
def invAgentInfo : AgentInfo :=
  { agent_id := "inventory_agent"
    agent_name := "Inventory Management Agent"
    capabilities :=
      [ { name := "inventory_management"
          description := "Manage inventory levels, reorder points, and stock optimization"
          input_types := ["inventory_data", "stock_levels"]
          output_types := ["inventory_recommendations", "reorder_alerts"]
          keywords := ["inventory", "stock", "reorder", "warehouse"] },
        { name := "stock_analysis"
          description := "Analyze stock levels and identify optimization opportunities"
          input_types := ["inventory_data"]
          output_types := ["analysis_report"]
          keywords := ["analyze", "stock", "levels", "optimization"] } ] }

/-- The registration `register_agent` creates for the inventory agent. -/
def invReg : AgentRegistration := freshRegistration invAgentInfo

/-- A custom rule of the shape `_evaluate_rule`'s parser accepts
(a condition string, as `add_routing_rule` permits), keyed on `"stock"`. -/
def stockRule : RoutingRule :=
  { condition := .ofStr "\"stock\" in user_input.lower()"
    required_capabilities := ["inventory_management"]
    priority := 1 }

/-- The spec scenario's request. -/
def checkStockTask : TaskRequest :=
  { task_id := "t1", user_input := "check stock levels" }

/-! ### Helper lemmas: the router -/

/-- Inserting into the ranked list is a permutation of consing. -/
theorem insertRanked_perm (a : AgentRegistration) :
    ∀ l : List AgentRegistration, (insertRanked a l).Perm (a :: l)
  | [] => List.Perm.refl _
  | b :: t => by
    unfold insertRanked
    split
    · exact ((insertRanked_perm a t).cons b).trans (List.Perm.swap a b t)
    · exact List.Perm.refl _

/-- The stable ranking sort permutes its input. -/
theorem sortRanked_perm : ∀ l : List AgentRegistration, (sortRanked l).Perm l
  | [] => List.Perm.refl _
  | x :: xs =>
    (insertRanked_perm x (sortRanked xs)).trans ((sortRanked_perm xs).cons x)

/-- Membership in the capability filter, unfolded. -/
theorem mem_find_agents_by_capabilities
    (regs : List AgentRegistration) (required : List String)
    (a : AgentRegistration) :
    a ∈ find_agents_by_capabilities regs required ↔
      a ∈ regs ∧ a.status = "active" ∧
        ∃ cap ∈ required, cap ∈ a.capabilities.map AgentCapability.name := by
  simp [find_agents_by_capabilities, List.mem_filter, and_assoc]

/-- Membership in the rule-matching fold, generalized over the
accumulator. -/
theorem mem_suitable_foldl (task : TaskRequest) (regs : List AgentRegistration) :
    ∀ (rules : List RoutingRule) (acc : List AgentRegistration)
      (a : AgentRegistration),
      (a ∈ rules.foldl
          (fun acc2 rule =>
            if evaluate_rule rule task then
              acc2 ++ find_agents_by_capabilities regs rule.required_capabilities
            else acc2) acc
        ↔ a ∈ acc ∨ ∃ r ∈ rules, evaluate_rule r task = true ∧
            a ∈ find_agents_by_capabilities regs r.required_capabilities)
  | [], acc, a => by simp
  | rule :: rules, acc, a => by
    rw [List.foldl_cons, mem_suitable_foldl task regs rules _ a]
    by_cases h : evaluate_rule rule task
    · simp only [h, if_pos, List.mem_append, List.mem_cons]
      constructor
      · rintro (⟨hx | hx⟩ | ⟨r, hr, he, hm⟩)
        · exact Or.inl hx
        · exact Or.inr ⟨rule, Or.inl rfl, h, hx⟩
        · exact Or.inr ⟨r, Or.inr hr, he, hm⟩
      · rintro (hx | ⟨r, (rfl | hr), he, hm⟩)
        · exact Or.inl (Or.inl hx)
        · exact Or.inl (Or.inr hm)
        · exact Or.inr ⟨r, hr, he, hm⟩
    · simp only [h, if_neg, Bool.false_eq_true, not_false_iff, List.mem_cons]
      constructor
      · rintro (hx | ⟨r, hr, he, hm⟩)
        · exact Or.inl hx
        · exact Or.inr ⟨r, Or.inr hr, he, hm⟩
      · rintro (hx | ⟨r, (rfl | hr), he, hm⟩)
        · exact Or.inl hx
        · exact absurd he (by simpa using h)
        · exact Or.inr ⟨r, hr, he, hm⟩

/-- Membership in `suitable_agents`, characterized. -/
theorem mem_suitable_agents (rules : List RoutingRule)
    (regs : List AgentRegistration) (task : TaskRequest)
    (a : AgentRegistration) :
    a ∈ suitable_agents rules regs task ↔
      ∃ r ∈ rules, evaluate_rule r task = true ∧
        a ∈ find_agents_by_capabilities regs r.required_capabilities := by
  simpa using mem_suitable_foldl task regs rules [] a

/-- `dictInsert` only ever returns elements of the accumulator or the
inserted element. -/
theorem mem_dictInsert_sub (acc : List AgentRegistration)
    (h : AgentRegistration) (x : AgentRegistration)
    (hx : x ∈ dictInsert acc h) : x ∈ acc ∨ x = h := by
  unfold dictInsert at hx
  split at hx
  · obtain ⟨b, hb, hbx⟩ := List.mem_map.mp hx
    by_cases hid : b.agent_id = h.agent_id
    · rw [if_pos hid] at hbx
      exact Or.inr hbx.symm
    · rw [if_neg hid] at hbx
      exact Or.inl (hbx ▸ hb)
  · rcases List.mem_append.mp hx with hx | hx
    · exact Or.inl hx
    · exact Or.inr (List.mem_singleton.mp hx)

/-- Elements of the dict-comprehension fold come from the accumulator or
the folded list. -/
theorem mem_foldl_dictInsert_sub :
    ∀ (l acc : List AgentRegistration) (x : AgentRegistration),
      x ∈ l.foldl dictInsert acc → x ∈ acc ∨ x ∈ l
  | [], acc, x, hx => Or.inl hx
  | h :: t, acc, x, hx => by
    rw [List.foldl_cons] at hx
    rcases mem_foldl_dictInsert_sub t (dictInsert acc h) x hx with hx2 | hx2
    · rcases mem_dictInsert_sub acc h x hx2 with hx3 | hx3
      · exact Or.inl hx3
      · exact Or.inr (hx3 ▸ List.mem_cons_self h t)
    · exact Or.inr (List.mem_cons_of_mem h hx2)

/-- Every element of `dedupById l` is an element of `l`. -/
theorem mem_dedupById_sub (l : List AgentRegistration)
    (x : AgentRegistration) (hx : x ∈ dedupById l) : x ∈ l := by
  rcases mem_foldl_dictInsert_sub l [] x hx with h | h
  · cases h
  · exact h

/-- On an id-coherent pool (equal ids mean equal registrations — the
invariant of values drawn from a dict keyed by `agent_id`), the
dict-comprehension fold keeps exactly the members of accumulator and
list. -/
theorem mem_foldl_dictInsert :
    ∀ (l acc : List AgentRegistration),
      (∀ x, x ∈ acc ++ l → ∀ y, y ∈ acc ++ l → x.agent_id = y.agent_id → x = y) →
      ∀ x, x ∈ l.foldl dictInsert acc ↔ x ∈ acc ∨ x ∈ l
  | [], acc, _, x => by simp
  | h :: t, acc, hcoh, x => by
    rw [List.foldl_cons]
    by_cases hany : acc.any (fun b => b.agent_id == h.agent_id) = true
    · obtain ⟨b, hb, hbeq⟩ := List.any_eq_true.mp hany
      have hbid : b.agent_id = h.agent_id := by simpa using hbeq
      have hbh : b = h :=
        hcoh b (by simp [hb]) h (by simp) hbid
      have hins : dictInsert acc h = acc := by
        unfold dictInsert
        rw [if_pos hany]
        have : ∀ b2 ∈ acc, (if b2.agent_id = h.agent_id then h else b2) = b2 := by
          intro b2 hb2
          by_cases hid : b2.agent_id = h.agent_id
          · rw [if_pos hid]
            exact (hcoh b2 (by simp [hb2]) h (by simp) hid).symm
          · rw [if_neg hid]
        rw [List.map_congr_left this]
        simp
      rw [hins,
        mem_foldl_dictInsert t acc
          (by
            intro x2 hx2 y hy heq
            refine hcoh x2 ?_ y ?_ heq <;>
              simp only [List.mem_append, List.mem_cons] at * <;> tauto)
          x]
      have hha : h ∈ acc := hbh ▸ hb
      simp only [List.mem_cons]
      constructor
      · rintro (hx | hx)
        · exact Or.inl hx
        · exact Or.inr (Or.inr hx)
      · rintro (hx | rfl | hx)
        · exact Or.inl hx
        · exact Or.inl hha
        · exact Or.inr hx
    · have hins : dictInsert acc h = acc ++ [h] := by
        unfold dictInsert
        rw [if_neg hany]
      rw [hins,
        mem_foldl_dictInsert t (acc ++ [h])
          (by
            intro x2 hx2 y hy heq
            refine hcoh x2 ?_ y ?_ heq <;>
              simp only [List.mem_append, List.mem_cons,
                List.mem_singleton] at * <;> tauto)
          x]
      simp only [List.mem_append, List.mem_singleton, List.mem_cons]
      tauto

/-- On an id-coherent list, `dedupById` keeps exactly the members. -/
theorem mem_dedupById (l : List AgentRegistration)
    (hcoh : ∀ x ∈ l, ∀ y ∈ l, x.agent_id = y.agent_id → x = y)
    (x : AgentRegistration) : x ∈ dedupById l ↔ x ∈ l := by
  have := mem_foldl_dictInsert l []
    (by intro a ha b hb; exact hcoh a (by simpa using ha) b (by simpa using hb)) x
  simpa using this

/-- The dict-comprehension fold has pairwise-distinct `agent_id`s
whenever the accumulator does. -/
theorem ids_foldl_dictInsert_nodup :
    ∀ (l acc : List AgentRegistration),
      (acc.map AgentRegistration.agent_id).Nodup →
      ((l.foldl dictInsert acc).map AgentRegistration.agent_id).Nodup
  | [], _, hacc => hacc
  | h :: t, acc, hacc => by
    rw [List.foldl_cons]
    refine ids_foldl_dictInsert_nodup t (dictInsert acc h) ?_
    unfold dictInsert
    split
    · have : (acc.map fun b => if b.agent_id = h.agent_id then h else b).map
          AgentRegistration.agent_id = acc.map AgentRegistration.agent_id := by
        rw [List.map_map]
        refine List.map_congr_left ?_
        intro b _
        by_cases hid : b.agent_id = h.agent_id
        · simp [Function.comp, hid]
        · simp [Function.comp, hid]
      rw [this]
      exact hacc
    · rename_i hany
      rw [List.map_append]
      rw [List.nodup_append]
      refine ⟨hacc, List.nodup_singleton _, ?_⟩
      intro s hs hsh
      simp only [List.map_cons, List.map_nil, List.mem_singleton] at hsh
      subst hsh
      obtain ⟨b, hb, hbid⟩ := List.mem_map.mp hs
      exact hany (List.any_eq_true.mpr ⟨b, hb, by simp [hbid]⟩)

/-- `dedupById` yields pairwise-distinct `agent_id`s, unconditionally. -/
theorem dedupById_ids_nodup (l : List AgentRegistration) :
    ((dedupById l).map AgentRegistration.agent_id).Nodup :=
  ids_foldl_dictInsert_nodup l [] List.nodup_nil

/-- The router's output never lists an `agent_id` twice. -/
theorem find_best_agents_ids_nodup (rules : List RoutingRule)
    (regs : List AgentRegistration) (task : TaskRequest) :
    ((find_best_agents rules regs task).map AgentRegistration.agent_id).Nodup := by
  have hperm :
      ((find_best_agents rules regs task).map AgentRegistration.agent_id).Perm
        ((dedupById (suitable_agents rules regs task)).map
          AgentRegistration.agent_id) :=
    (sortRanked_perm _).map _
  exact hperm.nodup_iff.mpr (dedupById_ids_nodup _)

/-! ### Helper lemmas: the dispatcher's registry updates -/

/-- An element of an update that does not carry the updated id was there
before the update. -/
theorem mem_updateAgent_ne (regs : List AgentRegistration) (id : String)
    (f : AgentRegistration → AgentRegistration)
    (hf : ∀ b, (f b).agent_id = b.agent_id) (a : AgentRegistration)
    (ha : a ∈ updateAgent regs id f) (hne : a.agent_id ≠ id) : a ∈ regs := by
  obtain ⟨b, hb, hba⟩ := List.mem_map.mp ha
  by_cases h : b.agent_id = id
  · rw [if_pos h] at hba
    exact absurd (hba ▸ (hf b).trans h) hne
  · rw [if_neg h] at hba
    exact hba ▸ hb

/-- An element of an update carrying the updated id has the status the
update function writes. -/
theorem status_mem_updateAgent (regs : List AgentRegistration) (id : String)
    (f : AgentRegistration → AgentRegistration)
    (hs : ∀ b, (f b).status = "active") (a : AgentRegistration)
    (ha : a ∈ updateAgent regs id f) (heq : a.agent_id = id) :
    a.status = "active" := by
  obtain ⟨b, hb, hba⟩ := List.mem_map.mp ha
  by_cases h : b.agent_id = id
  · rw [if_pos h] at hba
    exact hba ▸ hs b
  · rw [if_neg h] at hba
    exact absurd (hba ▸ heq) h

/-- Two successive updates of the same id collapse to one mapped
update. -/
theorem updateAgent_comp (regs : List AgentRegistration) (id : String)
    (f g : AgentRegistration → AgentRegistration)
    (hf : ∀ b, (f b).agent_id = b.agent_id) :
    updateAgent (updateAgent regs id f) id g =
      regs.map (fun a => if a.agent_id = id then g (f a) else a) := by
  unfold updateAgent
  rw [List.map_map]
  refine List.map_congr_left ?_
  intro a _
  by_cases h : a.agent_id = id
  · simp [Function.comp, h, hf]
  · simp [Function.comp, h]

/-- Folding one per-candidate mapped update over candidates with distinct
ids applies the update once to exactly the entries whose id is a
candidate's. -/
theorem foldl_update_nodup (u : AgentRegistration → AgentRegistration)
    (hu : ∀ a, (u a).agent_id = a.agent_id) :
    ∀ (cands : List AgentRegistration),
      (cands.map AgentRegistration.agent_id).Nodup →
      ∀ regs : List AgentRegistration,
        cands.foldl
            (fun rs c => rs.map
              (fun a => if a.agent_id = c.agent_id then u a else a)) regs
          = regs.map
              (fun a =>
                if a.agent_id ∈ cands.map AgentRegistration.agent_id then u a
                else a)
  | [], _, regs => by simp
  | c :: t, hnd, regs => by
    rw [List.map_cons] at hnd
    have hcid : c.agent_id ∉ t.map AgentRegistration.agent_id :=
      (List.nodup_cons.mp hnd).1
    have hnd2 : (t.map AgentRegistration.agent_id).Nodup :=
      (List.nodup_cons.mp hnd).2
    rw [List.foldl_cons, foldl_update_nodup u hu t hnd2, List.map_map]
    refine List.map_congr_left ?_
    intro a _
    by_cases h : a.agent_id = c.agent_id
    · have h1 : (u a).agent_id ∉ t.map AgentRegistration.agent_id := by
        rw [hu a, h]
        exact hcid
      simp [Function.comp, h, h1]
    · by_cases h2 : a.agent_id ∈ t.map AgentRegistration.agent_id
      · simp [Function.comp, h, h2]
      · simp [Function.comp, h, h2]

/-! ### Helper lemmas: the retry loop -/

/-- Ids attempted by the retry loop come from the candidate list. -/
theorem tryAgents_attempted_sub {α : Type} (behave : String → Option α)
    (latency : String → ℚ) (now : Nat) :
    ∀ (cands regs : List AgentRegistration),
      (tryAgents behave latency now cands regs).2.1 ⊆
        cands.map AgentRegistration.agent_id
  | [], regs => by simp [tryAgents]
  | c :: rest, regs => by
    cases hb : behave c.agent_id with
    | some r => simp [tryAgents, hb]
    | none =>
      simp only [tryAgents, hb, List.map_cons]
      exact List.cons_subset_cons _
        (tryAgents_attempted_sub behave latency now rest _)

/-- The retry loop leaves every registration whose id it never touches in
place. -/
theorem tryAgents_frame {α : Type} (behave : String → Option α)
    (latency : String → ℚ) (now : Nat) :
    ∀ (cands regs : List AgentRegistration) (a : AgentRegistration),
      a ∈ (tryAgents behave latency now cands regs).1 →
      a.agent_id ∉ cands.map AgentRegistration.agent_id → a ∈ regs
  | [], regs, a, ha, _ => ha
  | c :: rest, regs, a, ha, hni => by
    have hne : a.agent_id ≠ c.agent_id := by
      intro h
      exact hni (by simp [h])
    have hni2 : a.agent_id ∉ rest.map AgentRegistration.agent_id := by
      intro h
      exact hni (by simp [h])
    cases hb : behave c.agent_id with
    | some r =>
      simp only [tryAgents, hb] at ha
      have h1 : a ∈ updateAgent regs c.agent_id (busyUpd now) :=
        mem_updateAgent_ne _ _ (succUpd (latency c.agent_id)) (fun b => rfl)
          a ha hne
      exact mem_updateAgent_ne _ _ (busyUpd now) (fun b => rfl) a h1 hne
    | none =>
      simp only [tryAgents, hb] at ha
      have h2 := tryAgents_frame behave latency now rest _ a ha hni2
      have h1 : a ∈ updateAgent regs c.agent_id (busyUpd now) :=
        mem_updateAgent_ne _ _ failUpd (fun b => rfl) a h2 hne
      exact mem_updateAgent_ne _ _ (busyUpd now) (fun b => rfl) a h1 hne

/-- After the retry loop, every registration whose id was attempted has
status `"active"` again (it is set `"busy"` only for the duration of its
own invocation). -/
theorem tryAgents_attempted_active {α : Type} (behave : String → Option α)
    (latency : String → ℚ) (now : Nat) :
    ∀ (cands regs : List AgentRegistration),
      (cands.map AgentRegistration.agent_id).Nodup →
      ∀ a ∈ (tryAgents behave latency now cands regs).1,
        a.agent_id ∈ (tryAgents behave latency now cands regs).2.1 →
        a.status = "active"
  | [], regs, _, a, _, hatt => by simp [tryAgents] at hatt
  | c :: rest, regs, hnd, a, ha, hatt => by
    rw [List.map_cons] at hnd
    have hcid : c.agent_id ∉ rest.map AgentRegistration.agent_id :=
      (List.nodup_cons.mp hnd).1
    have hnd2 : (rest.map AgentRegistration.agent_id).Nodup :=
      (List.nodup_cons.mp hnd).2
    cases hb : behave c.agent_id with
    | some r =>
      simp only [tryAgents, hb] at ha hatt
      rw [List.mem_singleton] at hatt
      exact status_mem_updateAgent _ _ (succUpd (latency c.agent_id))
        (fun b => rfl) a ha hatt
    | none =>
      simp only [tryAgents, hb] at ha hatt
      rcases List.mem_cons.mp hatt with heq | hmem
      · have hnotrest : a.agent_id ∉ rest.map AgentRegistration.agent_id :=
          heq ▸ hcid
        have hnotatt :
            a ∈ updateAgent (updateAgent regs c.agent_id (busyUpd now))
              c.agent_id failUpd :=
          tryAgents_frame behave latency now rest _ a ha hnotrest
        exact status_mem_updateAgent _ _ failUpd (fun b => rfl) a
          hnotatt heq
      · exact tryAgents_attempted_active behave latency now rest _ hnd2 a ha hmem

/-- When every candidate's handler raises, the retry loop returns no
outcome, attempts every candidate in order, and applies the busy-then-fail
update to each. -/
theorem tryAgents_allFail {α : Type} (behave : String → Option α)
    (latency : String → ℚ) (now : Nat) :
    ∀ (cands regs : List AgentRegistration),
      (∀ c ∈ cands, behave c.agent_id = none) →
      tryAgents behave latency now cands regs =
        (cands.foldl
            (fun rs c =>
              updateAgent (updateAgent rs c.agent_id (busyUpd now))
                c.agent_id failUpd) regs,
          cands.map AgentRegistration.agent_id, none)
  | [], regs, _ => by simp [tryAgents]
  | c :: rest, regs, hfail => by
    have hc : behave c.agent_id = none := hfail c (List.mem_cons_self c rest)
    simp only [tryAgents, hc, List.foldl_cons, List.map_cons]
    rw [tryAgents_allFail behave latency now rest _
      (fun d hd => hfail d (List.mem_cons_of_mem c hd))]

/-! ### Helper lemmas: the broadcast bus -/

/-- `remove_client` is `List.erase` (removing an absent client is a
no-op either way). -/
theorem remove_client_eq_erase (clients : List String) (c : String) :
    remove_client clients c = clients.erase c := by
  unfold remove_client
  by_cases h : c ∈ clients
  · rw [if_pos h]
  · rw [if_neg h, List.erase_of_not_mem h]

/-- Removing each client of a list in turn is list difference. -/
theorem foldl_remove_client_eq_diff :
    ∀ (l clients : List String), l.foldl remove_client clients = clients.diff l
  | [], clients => by simp [List.diff_nil]
  | a :: t, clients => by
    rw [List.foldl_cons, remove_client_eq_erase,
      foldl_remove_client_eq_diff t (clients.erase a), List.diff_cons]

/-- The post-broadcast client list is a subset of the pre-broadcast one. -/
theorem broadcast_event_clients_sub
    (failsOn : String → StreamingEvent → Bool) (clients : List String)
    (e : StreamingEvent) : (broadcast_event failsOn clients e).2 ⊆ clients := by
  unfold broadcast_event
  split
  · exact fun x hx => hx
  · intro x hx
    simp only at hx
    rw [foldl_remove_client_eq_diff] at hx
    exact List.diff_subset _ _ hx

/-- Who an event is delivered to is a subset of the connected clients. -/
theorem broadcast_event_delivered_sub
    (failsOn : String → StreamingEvent → Bool) (clients : List String)
    (e : StreamingEvent) : (broadcast_event failsOn clients e).1 ⊆ clients := by
  unfold broadcast_event
  split
  · intro x hx
    simp at hx
  · intro x hx
    simp only at hx
    exact List.mem_of_mem_filter hx

/-- A client absent from the registry receives nothing from the consuming
loop, ever (clients are only removed, never added, during processing). -/
theorem receivedBy_not_mem (failsOn : String → StreamingEvent → Bool)
    (c : String) :
    ∀ (events : List StreamingEvent) (clients : List String),
      c ∉ clients →
      receivedBy c (process_event_queue failsOn clients events).1 = []
  | [], clients, _ => rfl
  | e :: rest, clients, hc => by
    have hdel : c ∉ (broadcast_event failsOn clients e).1 :=
      fun h => hc (broadcast_event_delivered_sub failsOn clients e h)
    have hnext : c ∉ (broadcast_event failsOn clients e).2 :=
      fun h => hc (broadcast_event_clients_sub failsOn clients e h)
    have ih := receivedBy_not_mem failsOn c rest _ hnext
    simp only [process_event_queue, receivedBy, List.filter_cons]
    have hcon : ((broadcast_event failsOn clients e).1.contains c) = false := by
      rw [List.contains_eq_any_beq]
      rw [List.any_eq_false]
      intro x hx
      simp only [beq_iff_eq]
      intro hxc
      exact hdel (hxc ▸ hx)
    rw [hcon]
    simpa [receivedBy] using ih

/-! ### Helper lemmas: registration and success-rate metrics -/

/-- Looking up a key in a list where every entry holding that key was just
replaced by `fresh` finds `fresh`, provided some entry held the key. -/
theorem find_replaced (id : String) (fresh : AgentRegistration)
    (hid : fresh.agent_id = id) :
    ∀ regs : List AgentRegistration, (∃ b ∈ regs, b.agent_id = id) →
      (regs.map (fun b => if b.agent_id = id then fresh else b)).find?
          (fun a => a.agent_id == id) = some fresh
  | [], hex => absurd hex (by simp)
  | c :: t, hex => by
    by_cases h : c.agent_id = id
    · rw [List.map_cons, if_pos h]
      exact List.find?_cons_of_pos _ (by simp [hid])
    · rw [List.map_cons, if_neg h]
      rw [List.find?_cons_of_neg _ (by simp [h])]
      refine find_replaced id fresh hid t ?_
      obtain ⟨b, hb, hbid⟩ := hex
      rcases List.mem_cons.mp hb with rfl | hb2
      · exact absurd hbid h
      · exact ⟨b, hb2, hbid⟩

/-- Per-attempt `success_rate` updates keep the rate inside `[0, 1]`
whenever it starts there. -/
theorem foldl_applyOutcome_bounds :
    ∀ (l : List Bool) (sr : ℚ), 0 ≤ sr → sr ≤ 1 →
      0 ≤ l.foldl applyOutcome sr ∧ l.foldl applyOutcome sr ≤ 1
  | [], _, h0, h1 => ⟨h0, h1⟩
  | b :: t, sr, h0, h1 => by
    rw [List.foldl_cons]
    refine foldl_applyOutcome_bounds t (applyOutcome sr b) ?_ ?_
    · cases b
      · simp only [applyOutcome, Bool.false_eq_true, if_false, succRateDown]
        exact le_max_left 0 _
      · simp only [applyOutcome, if_true, succRateUp]
        exact le_min (by norm_num) (by linarith)
    · cases b
      · simp only [applyOutcome, Bool.false_eq_true, if_false, succRateDown]
        exact max_le (by norm_num) (by linarith)
      · simp only [applyOutcome, if_true, succRateUp]
        exact min_le_left 1 _

/-! ### Claim C1 -/

/-- Claim C1 (amended): with the default routing rules, `route_task` returns
the routing failure `"No suitable agents found for this task"` and invokes
no handler at all — for every registry, handler behaviour and request.
Every default rule's condition is a construction-time boolean, which
`_evaluate_rule` turns into a non-match, so the candidate list is always
empty; in particular the "check stock levels" scenario performs zero
attempts instead of one successful one. -/
theorem route_task_default_rules_never_routes {α : Type}
    (regs : List AgentRegistration) (behave : String → Option α)
    (latency : String → ℚ) (now : Nat) (task : TaskRequest) :
    route_task default_routing_rules regs behave latency now task =
      { result := { success := false, error := some noSuitableMsg,
                    task_id := task.task_id },
        registry := regs, attempted := [], history_append := [] } := rfl

/-- Claim C1, counterexample: the spec scenario — request
`"check stock levels"`, exactly one registered handler, active, exposing
the `inventory_management` capability, whose handler succeeds — does not
dispatch at all: `route_task` reports failure and attempts zero handlers,
while the claim requires one invocation and a success result. -/
theorem check_stock_scenario_counterexample :
    (route_task default_routing_rules [invReg] (fun _ => some "handled")
        (fun _ => 0) 0 checkStockTask).result.success = false ∧
    (route_task default_routing_rules [invReg] (fun _ => some "handled")
        (fun _ => 0) 0 checkStockTask).attempted = [] :=
  ⟨rfl, rfl⟩

/-! ### Claim C3 -/

/-- Claim C3 (amended): `register_agent` never fails; a registration call
whose `agent_id` is already present silently replaces the existing
registration with a fresh one (status `"active"`, `success_rate` 1.0,
metrics reset) — there is no `DuplicateHandlerError` and the existing
entry's state is not preserved. -/
theorem register_agent_overwrites_duplicate (regs : List AgentRegistration)
    (agent : AgentInfo) :
    lookupAgent (register_agent regs agent) agent.agent_id =
      some (freshRegistration agent) := by
  unfold register_agent dictInsert lookupAgent
  by_cases hany : (regs.any
      (fun b => b.agent_id == (freshRegistration agent).agent_id)) = true
  · rw [if_pos hany]
    obtain ⟨b, hb, hbeq⟩ := List.any_eq_true.mp hany
    exact find_replaced agent.agent_id (freshRegistration agent) rfl regs
      ⟨b, hb, by simpa using hbeq⟩
  · rw [if_neg hany]
    rw [List.find?_append]
    have hnone : regs.find? (fun a => a.agent_id == agent.agent_id) = none := by
      rw [List.find?_eq_none]
      intro a ha hpa
      exact hany (List.any_eq_true.mpr ⟨a, ha, hpa⟩)
    rw [hnone]
    simp [freshRegistration]

/-- Claim C3, counterexample: registering a second agent under the already
present id `"inventory_agent"` raises nothing and replaces the existing
registration (the stored entry now carries the impostor's name), so the
claimed `DuplicateHandlerError`-and-leave-unchanged behaviour is false. -/
theorem duplicate_registration_counterexample :
    lookupAgent (register_agent (register_agent [] invAgentInfo)
        ⟨"inventory_agent", "Impostor Agent", []⟩) "inventory_agent" =
      some (freshRegistration ⟨"inventory_agent", "Impostor Agent", []⟩) ∧
    freshRegistration (⟨"inventory_agent", "Impostor Agent", []⟩ : AgentInfo) ≠
      invReg :=
  ⟨rfl, by decide⟩

/-! ### Claim C4 -/

/-- Claim C4 (amended): the router never selects a handler whose status is
not `"active"`: a handler that is `"busy"` from a prior in-flight dispatch
is excluded from the candidate list (`_find_agents_by_capabilities` skips
every non-active registration), contrary to the claim that busy handlers
remain eligible. -/
theorem router_selects_only_active (rules : List RoutingRule)
    (regs : List AgentRegistration) (task : TaskRequest)
    (a : AgentRegistration) (ha : a ∈ find_best_agents rules regs task) :
    a.status = "active" := by
  have h1 : a ∈ dedupById (suitable_agents rules regs task) :=
    (sortRanked_perm _).mem_iff.mp ha
  have h2 : a ∈ suitable_agents rules regs task := mem_dedupById_sub _ a h1
  obtain ⟨r, _, _, hm⟩ := (mem_suitable_agents _ _ _ a).mp h2
  exact ((mem_find_agents_by_capabilities _ _ a).mp hm).2.1

/-- Claim C4, witness: a concrete active inventory handler is selected by a
matching keyword rule, and the theorem yields its status. -/
theorem router_selects_only_active_witness :
    invReg ∈ find_best_agents [stockRule] [invReg] checkStockTask ∧
    invReg.status = "active" := by
  have hmem : invReg ∈ find_best_agents [stockRule] [invReg] checkStockTask :=
    List.mem_singleton.mpr rfl
  exact ⟨hmem,
    router_selects_only_active [stockRule] [invReg] checkStockTask invReg hmem⟩

/-- Claim C4, counterexample: a registered handler whose status is `"busy"`
and whose capability set matches the matching rule's contributed tag is
nevertheless *not* in the router's candidate list — the list is empty. -/
theorem busy_agent_excluded_counterexample :
    evaluate_rule stockRule checkStockTask = true ∧
    "inventory_management" ∈
      ({ invReg with status := "busy" } : AgentRegistration).capabilities.map
        AgentCapability.name ∧
    find_best_agents [stockRule] [{ invReg with status := "busy" }]
        checkStockTask = [] ∧
    ({ invReg with status := "busy" } : AgentRegistration) ∉
      find_best_agents [stockRule] [{ invReg with status := "busy" }]
        checkStockTask := by
  refine ⟨by decide, by decide, rfl, ?_⟩
  intro h
  rw [show find_best_agents [stockRule] [{ invReg with status := "busy" }]
      checkStockTask = [] from rfl] at h
  cases h

/-! ### Claim C5 -/

/-- Claim C5 (confirmed): starting from the initial value 1.0 a fresh
registration carries, a registration's `success_rate` moves only through
the dispatcher's per-attempt updates — `min(1.0, sr + 0.1)` on a success
and `max(0.0, sr - 0.1)` on a failure — and after any sequence of dispatch
outcomes it remains within `[0, 1]`. -/
theorem success_rate_bounded (agent : AgentInfo) (outcomes : List Bool) :
    (∀ sr : ℚ, applyOutcome sr true = succRateUp sr ∧
      applyOutcome sr false = succRateDown sr) ∧
    0 ≤ outcomes.foldl applyOutcome (freshRegistration agent).success_rate ∧
    outcomes.foldl applyOutcome (freshRegistration agent).success_rate ≤ 1 :=
  ⟨fun _ => ⟨rfl, rfl⟩,
    foldl_applyOutcome_bounds outcomes _ zero_le_one le_rfl⟩

/-! ### Claim C2 -/

/-- Claim C2 (amended): when the ranked candidate list is non-empty and
every candidate's handler fails, `route_task` returns a failure whose error
is the *fixed* message `"All suitable agents failed to process the task"`
(it does not list the attempted handlers or their individual reasons), it
attempts every ranked candidate in order, and each attempted candidate's
registry entry takes the failure update: status back to `"active"` and
`success_rate` lowered by the fixed decrement `max(0.0, sr - 0.1)`. -/
theorem route_task_exhaustion {α : Type} (rules : List RoutingRule)
    (regs : List AgentRegistration) (behave : String → Option α)
    (latency : String → ℚ) (now : Nat) (task : TaskRequest)
    (hne : find_best_agents rules regs task ≠ [])
    (hfail : ∀ c ∈ find_best_agents rules regs task, behave c.agent_id = none) :
    (route_task rules regs behave latency now task).result =
      { success := false, error := some allFailedMsg,
        task_id := task.task_id } ∧
    (route_task rules regs behave latency now task).attempted =
      (find_best_agents rules regs task).map AgentRegistration.agent_id ∧
    (route_task rules regs behave latency now task).registry =
      regs.map (fun a =>
        if a.agent_id ∈
            (find_best_agents rules regs task).map AgentRegistration.agent_id
        then failUpd (busyUpd now a) else a) := by
  have hie : (find_best_agents rules regs task).isEmpty = false := by
    cases h : find_best_agents rules regs task with
    | nil => exact absurd h hne
    | cons x xs => rfl
  have hall := tryAgents_allFail behave latency now
    (find_best_agents rules regs task) regs hfail
  have hstep :
      (fun (rs : List AgentRegistration) (c : AgentRegistration) =>
          updateAgent (updateAgent rs c.agent_id (busyUpd now))
            c.agent_id failUpd) =
        fun rs c => rs.map
          (fun a => if a.agent_id = c.agent_id then failUpd (busyUpd now a)
            else a) := by
    funext rs c
    exact updateAgent_comp rs c.agent_id (busyUpd now) failUpd (fun b => rfl)
  have hfold := foldl_update_nodup (fun a => failUpd (busyUpd now a))
    (fun a => rfl) (find_best_agents rules regs task)
    (find_best_agents_ids_nodup rules regs task) regs
  refine ⟨?_, ?_, ?_⟩ <;>
    simp only [route_task, hie, Bool.false_eq_true, if_false, hall] <;>
    rw [hstep] at hall ⊢ <;>
    simp only [hall, hfold]

/-- Claim C2, witness: one active inventory handler matched by a keyword
rule, whose handler raises — the candidate list is the non-empty
`[invReg]`, and the theorem yields the fixed error message and the
attempted-id list. -/
theorem route_task_exhaustion_witness :
    find_best_agents [stockRule] [invReg] checkStockTask ≠ [] ∧
    (route_task [stockRule] [invReg] (fun _ => (none : Option String))
        (fun _ => 0) 0 checkStockTask).result =
      { success := false, error := some allFailedMsg, task_id := "t1" } ∧
    (route_task [stockRule] [invReg] (fun _ => (none : Option String))
        (fun _ => 0) 0 checkStockTask).attempted = ["inventory_agent"] := by
  have hne : find_best_agents [stockRule] [invReg] checkStockTask ≠ [] := by
    intro h
    have h2 : ([invReg] : List AgentRegistration) = [] := by
      rw [← show find_best_agents [stockRule] [invReg] checkStockTask = [invReg]
        from rfl]
      exact h
    cases h2
  have hfail : ∀ c ∈ find_best_agents [stockRule] [invReg] checkStockTask,
      (fun _ : String => (none : Option String)) c.agent_id = none :=
    fun c _ => rfl
  refine ⟨hne, ?_, ?_⟩
  · exact (route_task_exhaustion [stockRule] [invReg] _ _ 0 checkStockTask
      hne hfail).1
  · exact (route_task_exhaustion [stockRule] [invReg] _ _ 0 checkStockTask
      hne hfail).2.1

/-- Claim C2, counterexample: in a run where the one attempted handler is
`inventory_agent` (named "Inventory Management Agent") and it fails, the
returned error payload is the fixed string, which names neither the
handler id nor its display name nor any per-handler reason — so the claim
that the error "lists every attempted handler and its individual failure
reason" is false. -/
theorem exhaustion_error_payload_counterexample :
    (route_task [stockRule] [invReg] (fun _ => (none : Option String))
        (fun _ => 0) 0 checkStockTask).attempted = ["inventory_agent"] ∧
    (route_task [stockRule] [invReg] (fun _ => (none : Option String))
        (fun _ => 0) 0 checkStockTask).result.error = some allFailedMsg ∧
    pyContains allFailedMsg "inventory_agent" = false ∧
    pyContains allFailedMsg "Inventory Management Agent" = false :=
  ⟨rfl, rfl, by decide, by decide⟩

/-! ### Claim C6 -/

/-- Claim C6 (confirmed): for a registry with distinct `agent_id`s (the
invariant of a Python dict keyed by `agent_id`), the router's output lists
each handler id at most once, and contains a registration exactly when it
is registered, its status is `"active"`, and some matching rule contributes
a capability it exposes — in particular it never contains an `"inactive"`
(or any non-active) handler. -/
theorem router_output_characterization (rules : List RoutingRule)
    (regs : List AgentRegistration) (task : TaskRequest)
    (hN : (regs.map AgentRegistration.agent_id).Nodup) :
    ((find_best_agents rules regs task).map AgentRegistration.agent_id).Nodup ∧
    ∀ a : AgentRegistration,
      a ∈ find_best_agents rules regs task ↔
        a ∈ regs ∧ a.status = "active" ∧
          ∃ r ∈ rules, evaluate_rule r task = true ∧
            ∃ cap ∈ r.required_capabilities,
              cap ∈ a.capabilities.map AgentCapability.name := by
  refine ⟨find_best_agents_ids_nodup rules regs task, ?_⟩
  intro a
  have hsub : ∀ x ∈ suitable_agents rules regs task, x ∈ regs := by
    intro x hx
    obtain ⟨r, _, _, hm⟩ := (mem_suitable_agents _ _ _ x).mp hx
    exact ((mem_find_agents_by_capabilities _ _ x).mp hm).1
  have hcoh : ∀ x ∈ suitable_agents rules regs task,
      ∀ y ∈ suitable_agents rules regs task,
        x.agent_id = y.agent_id → x = y := by
    intro x hx y hy heq
    exact List.inj_on_of_nodup_map hN (hsub x hx) (hsub y hy) heq
  rw [show find_best_agents rules regs task =
      sortRanked (dedupById (suitable_agents rules regs task)) from rfl,
    (sortRanked_perm _).mem_iff, mem_dedupById _ hcoh a, mem_suitable_agents]
  constructor
  · rintro ⟨r, hr, he, hm⟩
    obtain ⟨hreg, hst, hcap⟩ := (mem_find_agents_by_capabilities _ _ a).mp hm
    exact ⟨hreg, hst, r, hr, he, hcap⟩
  · rintro ⟨hreg, hst, r, hr, he, hcap⟩
    exact ⟨r, hr, he, (mem_find_agents_by_capabilities _ _ a).mpr
      ⟨hreg, hst, hcap⟩⟩

/-- Claim C6, witness: the characterization instantiated at the concrete
one-handler registry, keyword rule and request. -/
theorem router_output_characterization_witness :
    ((find_best_agents [stockRule] [invReg] checkStockTask).map
      AgentRegistration.agent_id).Nodup ∧
    ∀ a : AgentRegistration,
      a ∈ find_best_agents [stockRule] [invReg] checkStockTask ↔
        a ∈ [invReg] ∧ a.status = "active" ∧
          ∃ r ∈ [stockRule], evaluate_rule r checkStockTask = true ∧
            ∃ cap ∈ r.required_capabilities,
              cap ∈ a.capabilities.map AgentCapability.name :=
  router_output_characterization [stockRule] [invReg] checkStockTask
    (by decide)

/-! ### Claim C7 -/

/-- Claim C7 (confirmed): the consuming loop processes the queued events
one at a time, exactly in publish order (the delivery log's event sequence
*is* the queue), and each event's fan-out completes before the next event
is dequeued; consequently what any subscriber observes is a subsequence of
the publish order — so if `e1` was published before `e2`, a subscriber
that receives both observes `e1` before `e2`. -/
theorem publish_order_preserved (failsOn : String → StreamingEvent → Bool) :
    ∀ (events : List StreamingEvent) (clients : List String) (c : String),
      ((process_event_queue failsOn clients events).1.map Prod.fst = events) ∧
      (receivedBy c (process_event_queue failsOn clients events).1).Sublist
        events
  | [], clients, c => ⟨rfl, List.nil_sublist []⟩
  | e :: rest, clients, c => by
    have ih := publish_order_preserved failsOn rest
      (broadcast_event failsOn clients e).2 c
    constructor
    · simp only [process_event_queue, List.map_cons]
      rw [ih.1]
    · simp only [process_event_queue, receivedBy, List.filter_cons]
      split
      · simp only [List.map_cons]
        exact ih.2.cons₂ e
      · exact ih.2.cons e

/-! ### Claim C8 -/

/-- Claim C8 (confirmed): during a fan-out, a subscriber whose send raises
the transport error is not delivered that event, is removed from the
registry before the next event is processed, and receives nothing from the
rest of the queue; its failure does not prevent delivery of the same event
to every other registered subscriber whose send succeeds (each such
subscriber both receives the event and stays registered).  Stated for a
duplicate-free client registry, which is how distinct websocket
connections are kept. -/
theorem failing_subscriber_removed (failsOn : String → StreamingEvent → Bool)
    (clients : List String) (e : StreamingEvent)
    (rest : List StreamingEvent) (c : String) (hnd : clients.Nodup)
    (hc : c ∈ clients) (hf : failsOn c e = true) :
    c ∉ (broadcast_event failsOn clients e).1 ∧
    c ∉ (broadcast_event failsOn clients e).2 ∧
    (∀ d ∈ clients, failsOn d e = false →
      d ∈ (broadcast_event failsOn clients e).1 ∧
      d ∈ (broadcast_event failsOn clients e).2) ∧
    receivedBy c
      (process_event_queue failsOn (broadcast_event failsOn clients e).2
        rest).1 = [] := by
  have hne : clients.isEmpty = false := by
    cases clients with
    | nil => cases hc
    | cons x xs => rfl
  have hbe : broadcast_event failsOn clients e =
      (clients.filter (fun x => !failsOn x e),
        (clients.filter (fun x => failsOn x e)).foldl remove_client clients) := by
    unfold broadcast_event
    rw [hne]
    rfl
  have hout : c ∉ (broadcast_event failsOn clients e).2 := by
    rw [hbe]
    simp only
    rw [foldl_remove_client_eq_diff, List.Nodup.mem_diff_iff hnd]
    rintro ⟨-, habs⟩
    exact habs (List.mem_filter.mpr ⟨hc, hf⟩)
  refine ⟨?_, hout, ?_, ?_⟩
  · rw [hbe]
    intro h
    have := (List.mem_filter.mp h).2
    rw [hf] at this
    cases this
  · intro d hd hdf
    constructor
    · rw [hbe]
      exact List.mem_filter.mpr ⟨hd, by rw [hdf]; rfl⟩
    · rw [hbe]
      simp only
      rw [foldl_remove_client_eq_diff, List.Nodup.mem_diff_iff hnd]
      refine ⟨hd, fun habs => ?_⟩
      have := (List.mem_filter.mp habs).2
      rw [hdf] at this
      cases this
  · exact receivedBy_not_mem failsOn c rest _ hout

/-- Claim C8, witness: two subscribers `"alpha"` and `"beta"`; `"alpha"`'s
send raises on every event.  After the first broadcast `"alpha"` got
nothing and is gone, `"beta"` got the event and remains, and `"alpha"`
receives nothing from the rest of the queue. -/
theorem failing_subscriber_removed_witness :
    "alpha" ∉ (broadcast_event (fun cl _ => cl == "alpha") ["alpha", "beta"]
      { event_type := "item_added", item_id := "i1",
        agent_id := "inventory_agent" }).1 ∧
    "alpha" ∉ (broadcast_event (fun cl _ => cl == "alpha") ["alpha", "beta"]
      { event_type := "item_added", item_id := "i1",
        agent_id := "inventory_agent" }).2 ∧
    (∀ d ∈ ["alpha", "beta"],
      (fun cl _ => cl == "alpha") d
          ({ event_type := "item_added", item_id := "i1",
             agent_id := "inventory_agent" } : StreamingEvent) = false →
      d ∈ (broadcast_event (fun cl _ => cl == "alpha") ["alpha", "beta"]
        { event_type := "item_added", item_id := "i1",
          agent_id := "inventory_agent" }).1 ∧
      d ∈ (broadcast_event (fun cl _ => cl == "alpha") ["alpha", "beta"]
        { event_type := "item_added", item_id := "i1",
          agent_id := "inventory_agent" }).2) ∧
    receivedBy "alpha"
      (process_event_queue (fun cl _ => cl == "alpha")
        (broadcast_event (fun cl _ => cl == "alpha") ["alpha", "beta"]
          { event_type := "item_added", item_id := "i1",
            agent_id := "inventory_agent" }).2
        [{ event_type := "item_removed", item_id := "i2",
           agent_id := "inventory_agent" }]).1 = [] :=
  failing_subscriber_removed (fun cl _ => cl == "alpha") ["alpha", "beta"]
    { event_type := "item_added", item_id := "i1",
      agent_id := "inventory_agent" }
    [{ event_type := "item_removed", item_id := "i2",
       agent_id := "inventory_agent" }]
    "alpha" (by decide) (by decide) (by decide)

/-! ### Claim C10 -/

/-- Claim C10 (confirmed): whenever `route_task` returns — with success,
or after per-candidate failures, or with exhaustion — no attempted
handler's registration is left with status `"busy"`: every registration in
the final registry whose id was attempted has status `"active"` (the busy
mark is set only for the duration of that candidate's own invocation and
restored on both the success and the failure path). -/
theorem no_attempted_handler_left_busy {α : Type} (rules : List RoutingRule)
    (regs : List AgentRegistration) (behave : String → Option α)
    (latency : String → ℚ) (now : Nat) (task : TaskRequest)
    (a : AgentRegistration)
    (ha : a ∈ (route_task rules regs behave latency now task).registry)
    (hatt : a.agent_id ∈ (route_task rules regs behave latency now task).attempted) :
    a.status = "active" := by
  by_cases hie : (find_best_agents rules regs task).isEmpty = true
  · simp only [route_task, hie, if_true] at hatt
    cases hatt
  · have hie2 : (find_best_agents rules regs task).isEmpty = false :=
      Bool.not_eq_true _ ▸ (Bool.eq_false_iff.mpr hie)
    simp only [route_task, hie2, Bool.false_eq_true, if_false] at ha hatt
    exact tryAgents_attempted_active behave latency now
      (find_best_agents rules regs task) regs
      (find_best_agents_ids_nodup rules regs task) a ha hatt

/-- Claim C10, witness: a successful dispatch of the keyword-matched
request through the one inventory handler leaves that attempted handler's
registration with status `"active"`. -/
theorem no_attempted_handler_left_busy_witness :
    succUpd 0 (busyUpd 0 invReg) ∈
      (route_task [stockRule] [invReg] (fun _ => some "handled")
        (fun _ => 0) 0 checkStockTask).registry ∧
    (succUpd 0 (busyUpd 0 invReg)).agent_id ∈
      (route_task [stockRule] [invReg] (fun _ => some "handled")
        (fun _ => 0) 0 checkStockTask).attempted ∧
    (succUpd 0 (busyUpd 0 invReg)).status = "active" := by
  have hmem : succUpd 0 (busyUpd 0 invReg) ∈
      (route_task [stockRule] [invReg] (fun _ => some "handled")
        (fun _ => 0) 0 checkStockTask).registry :=
    List.mem_singleton.mpr rfl
  have hatt : (succUpd 0 (busyUpd 0 invReg)).agent_id ∈
      (route_task [stockRule] [invReg] (fun _ => some "handled")
        (fun _ => 0) 0 checkStockTask).attempted :=
    List.mem_singleton.mpr rfl
  exact ⟨hmem, hatt,
    no_attempted_handler_left_busy [stockRule] [invReg] _ _ 0 checkStockTask
      _ hmem hatt⟩
